import Mathlib

/-!
Shallow embedding of the SalesAgent voice frontend, covering:

* `src/worklets/pcm-player.js` — the playback `AudioWorkletProcessor`
  (`PCMPlayer`): message handling (`push` / `clear` / `ramp_down`) and the
  per-frame `process` loop, modelled over exact rationals.
* `src/worklets/pcm-processor.js` — the microphone capture worklet
  (`PCMProcessor`): linear resampling to 16 kHz and chunked emission.
* `src/lib/ws.ts` — the client WebSocket state machine of
  `connectAndRecord`: message dispatch, mic uplink backpressure,
  `final_audio_complete` signalling, `stop`/`cleanup` idempotence.
* `src/App.tsx` — the post-call scorecard data (`mockScorecard`).

JavaScript numbers are modelled as exact rationals (`ℚ`); the only numeric
operations the modelled code performs on audio values (add, multiply,
divide by a power of two, clamp, floor) are exact on the inputs the claims
are about, and the spec-level claims under proof are stated "under exact
arithmetic".
-/

/-- The clamp `Math.max(-1, Math.min(1, s))` applied to a float sample
before scaling, used identically by both worklets
(`pcm-player.js` line 72 and `pcm-processor.js` line 17), written with
conditionals (equal to the JS min/max on the non-NaN rationals we
model). -/
def clampQ (x : ℚ) : ℚ :=
  let m := if 1 ≤ x then 1 else x     -- Math.min(1, x)
  if m ≤ -1 then -1 else m            -- Math.max(-1, m)

namespace PCMPlayer

/-- State of the `PCMPlayer` worklet (`src/worklets/pcm-player.js`,
constructor): `queue` of Int16 chunks, read pointer `ptr` into the head
chunk, the `isPlaying` flag, and the volume-ramp state
(`gain`, `rampSamplesLeft`, `rampStep`). -/
structure PlayerState where
  queue : List (List ℤ)
  ptr : ℕ
  isPlaying : Bool
  gain : ℚ
  rampSamplesLeft : ℕ
  rampStep : ℚ
  deriving Repr, DecidableEq

/-- Initial state set up by the constructor: empty queue, not playing,
gain 1, no ramp. -/
def initPlayer : PlayerState :=
  { queue := [], ptr := 0, isPlaying := false,
    gain := 1, rampSamplesLeft := 0, rampStep := 0 }

/-- Messages accepted by `PCMPlayer.port.onmessage`.  A `push` carries the
decoded Int16 samples of the transferred buffer (the source truncates the
byte length to an even number and views it as an `Int16Array`; we model the
chunk at sample granularity). -/
inductive PlayerMsg
  | push (chunk : List ℤ)
  | clear
  | rampDown (ms : ℕ)
  deriving Repr, DecidableEq

/-- The playback `AudioContext` runs at `DEFAULT_TTS_SAMPLE_RATE = 48000`
(`src/lib/ws.ts`), which is the `sampleRate` global seen by the worklet. -/
def sampleRate : ℕ := 48000

/-- `PCMPlayer.port.onmessage`: returns the new state together with the
list of `isPlaying` values posted back as `{type:'state'}` messages
(in order).

* `push`: append the chunk; if not playing, set `isPlaying` and post
  `true` (the queue is non-empty after the append); if the gain had faded
  to `0`, restore it to `1` and cancel the ramp.
* `clear`: drop the queue and reset `ptr` and the ramp, keeping the
  current gain; post `false` if it was playing.
* `ramp_down ms`: ignored if a ramp is active or the gain is already
  `≤ 0.0001`; otherwise start a linear ramp to zero over
  `max 1 (floor (sampleRate * ms / 1000))` samples.  (`Math.max(1, ms)`
  is applied to the requested milliseconds first.) -/
def onmessage (s : PlayerState) : PlayerMsg → PlayerState × List Bool
  | .push chunk =>
    let q := s.queue ++ [chunk]
    let posts := if s.isPlaying then [] else [true]
    let s1 := { s with queue := q, isPlaying := true }
    let s2 := if s1.gain = 0
      then { s1 with gain := 1, rampSamplesLeft := 0, rampStep := 0 }
      else s1
    (s2, posts)
  | .clear =>
    ({ s with queue := [], ptr := 0, rampSamplesLeft := 0, rampStep := 0,
              isPlaying := false },
     if s.isPlaying then [false] else [])
  | .rampDown ms =>
    let ms1 := max 1 ms
    if 0 < s.rampSamplesLeft ∨ s.gain ≤ 1/10000 then (s, [])
    else
      let n := max 1 (sampleRate * ms1 / 1000)
      ({ s with rampSamplesLeft := n, rampStep := (0 - s.gain) / (n : ℚ) },
       [])

/-- The head of `process`'s while-loop body: skip (shift) exhausted head
chunks, then read the sample at `ptr` (advancing it).  Mirrors the
`queue.shift(); ptr = 0; continue` branch followed by `cur[this.ptr++]`.
Returns `none` when the queue runs out (the loop's `break`), together with
the queue/ptr as the source leaves them. -/
def popSample : List (List ℤ) → ℕ → Option ℤ × List (List ℤ) × ℕ
  | [], p => (none, [], p)
  | cur :: rest, p =>
    if h : p < cur.length then (some (cur.get ⟨p, h⟩), cur :: rest, p + 1)
    else popSample rest 0

/-- The per-sample volume-ramp update inside `process`: if a ramp is
active, step the gain; on the last ramp sample clamp the gain into
`[0, 1]` and, if it is effectively silent (`≤ 0.0001`), snap it to `0` and
post `isPlaying = false` when the flag was set.  `rampStep` keeps its
stale value after completion, as in the source. -/
def rampTick (s : PlayerState) : PlayerState × List Bool :=
  if 0 < s.rampSamplesLeft then
    let g := s.gain + s.rampStep
    let left := s.rampSamplesLeft - 1
    if left = 0 then
      let g0 := if g ≤ 0 then 0 else g        -- Math.max(0, g)
      let gc := if 1 ≤ g0 then 1 else g0      -- Math.min(1, ·)
      if gc ≤ 1/10000 then
        ({ s with gain := 0, rampSamplesLeft := 0, isPlaying := false },
         if s.isPlaying then [false] else [])
      else ({ s with gain := gc, rampSamplesLeft := 0 }, [])
    else ({ s with gain := g, rampSamplesLeft := left }, [])
  else (s, [])

/-- The while-loop of `PCMPlayer.process`, with `n` the number of output
slots still available (`out.length - i`).  Each iteration pops one sample
(shifting exhausted chunks first), applies the ramp, writes
`clamped * gain`, and breaks early once the gain reaches `0`.  Returns the
final state, the samples written, and the state messages posted. -/
def loop (s : PlayerState) : ℕ → PlayerState × List ℚ × List Bool
  | 0 => (s, [], [])
  | n + 1 =>
    match popSample s.queue s.ptr with
    | (none, q, p) => ({ s with queue := q, ptr := p }, [], [])
    | (some v, q, p) =>
      let s1 : PlayerState := { s with queue := q, ptr := p }
      let samp := clampQ ((v : ℚ) / 32768)
      let r1 := rampTick s1
      let s2 := r1.1
      let out := samp * s2.gain
      if s2.gain ≤ 0 then (s2, [out], r1.2)
      else
        let r2 := loop s2 n
        (r2.1, out :: r2.2.1, r1.2 ++ r2.2.2)

/-- One call of `PCMPlayer.process` with a mono output frame of
`frameLen` slots: run the loop, then the underrun check (post
`isPlaying = false` as soon as the queue is empty while the gain is
positive), then fill the remaining slots with silence. -/
def processCall (s : PlayerState) (frameLen : ℕ) :
    PlayerState × List ℚ × List Bool :=
  let r := loop s frameLen
  let s1 := r.1
  let outs := r.2.1 ++ List.replicate (frameLen - r.2.1.length) 0
  if s1.isPlaying ∧ s1.queue = [] ∧ 0 < s1.gain then
    ({ s1 with isPlaying := false }, outs, r.2.2 ++ [false])
  else (s1, outs, r.2.2)

/-- Reachable configurations of the worklet: the player state paired with
the chronological list of `isPlaying` values it has posted. -/
inductive Reach : PlayerState → List Bool → Prop
  | init : Reach initPlayer []
  | msg {s log} (m : PlayerMsg) : Reach s log →
      Reach (onmessage s m).1 (log ++ (onmessage s m).2)
  | proc {s log} (n : ℕ) : Reach s log →
      Reach (processCall s n).1 (log ++ (processCall s n).2.2)

end PCMPlayer

namespace PCMProc

/-- `this.targetOutSamples = 1000; // 62.5ms @ 16k`
(`src/worklets/pcm-processor.js`, constructor). -/
def targetOutSamples : ℕ := 1000

/-- Storing a float `v` into an `Int16Array` truncates it toward zero
(after the clamp to `[-1, 1]` the value is already in int16 range, so no
modular wrap occurs).  For rationals: floor for non-negatives, ceiling
for negatives. -/
def truncToward0 (q : ℚ) : ℤ := if q < 0 then ⌈q⌉ else ⌊q⌋

/-- `out[i] = v < 0 ? v * 0x8000 : v * 0x7FFF` followed by the
`Int16Array` store. -/
def toInt16 (v : ℚ) : ℤ :=
  if v < 0 then truncToward0 (v * 32768) else truncToward0 (v * 32767)

/-- `PCMProcessor.resampleTo16k`: simple linear resampler from the
capture rate `sr` (the worklet's `sampleRate` global) down to 16 kHz,
with each interpolated sample clamped to `[-1, 1]` and converted to
int16. -/
def resampleTo16k (sr : ℕ) (f : List ℚ) : List ℤ :=
  let ratio : ℚ := (sr : ℚ) / 16000
  let outLen : ℕ := (⌊(f.length : ℚ) / ratio⌋).toNat
  (List.range outLen).map fun (i : ℕ) =>
    let idx : ℚ := (i : ℚ) * ratio
    let i0 : ℕ := (⌊idx⌋).toNat
    let i1 : ℕ := min (i0 + 1) (f.length - 1)
    let s := f.getD i0 0 * (1 - (idx - (i0 : ℚ)))
             + f.getD i1 0 * (idx - (i0 : ℚ))
    toInt16 (clampQ s)

/-- `const requiredInputSamples = Math.ceil(this.targetOutSamples * ratio)`
with `ratio = sampleRate / 16000` (`PCMProcessor.process`). -/
def requiredInputSamples (sr : ℕ) : ℕ :=
  (⌈(targetOutSamples : ℚ) * ((sr : ℚ) / 16000)⌉).toNat

/-- The emission loop of `PCMProcessor.process`: while enough buffered
input is available, slice off `requiredInputSamples` input samples,
resample the slice, and post the resulting chunk.  Returns the posted
chunks (in order) and the remaining buffer.  The `0 < req` conjunct only
rules out the degenerate `sampleRate = 0` (at any positive rate
`requiredInputSamples` is positive, and the JS loop consumes the buffer
exactly as modelled here). -/
def emitChunks (sr : ℕ) (buf : List ℚ) : List (List ℤ) × List ℚ :=
  let req := requiredInputSamples sr
  if h : 0 < req ∧ req ≤ buf.length then
    let r := emitChunks sr (buf.drop req)
    (resampleTo16k sr (buf.take req) :: r.1, r.2)
  else ([], buf)
termination_by buf.length
decreasing_by simp only [List.length_drop]; omega

end PCMProc

namespace WsClient

/-- WebSocket ready states used by `src/lib/ws.ts`
(`ws.readyState !== WebSocket.OPEN`). -/
inductive WsReadyState
  | CONNECTING
  | OPEN
  | CLOSED
  deriving Repr, DecidableEq

/-- Server → client JSON messages dispatched by `ws.onmessage`
(`src/lib/ws.ts`).  The `vad` and `utterance` branches touch only the
VAD bookkeeping, logging, UI callbacks and `triggerRampDown` (modelled
separately below); they neither send on the socket nor change the fields
modelled here, so they are omitted from this inductive. -/
inductive ServerMsg
  | status (message : String)
  | asrFinal (text : String)
  | llmToken (text : String)
  | segmentDone (isFinal : Bool)
  | turnDone
  | done
  | hangup
  deriving Repr, DecidableEq

/-- Frames the client sends on the WebSocket: the JSON text frames
`start`/`stop`/`final_audio_complete` and binary microphone frames
(payload abstracted to an identifier). -/
inductive WsFrame
  | start (persona : String)
  | stop
  | finalAudioComplete
  | mic (payload : ℕ)
  deriving Repr, DecidableEq

/-- Messages the client posts to `playerNode.port` (payload of a `push`
abstracted to an identifier; the worklet-side semantics of these
messages is `PCMPlayer.onmessage`). -/
inductive PlayerPost
  | push (payload : ℕ)
  | clear
  | rampDown (ms : ℕ)
  deriving Repr, DecidableEq

/-- Invocations of the `Handlers` callbacks passed to
`connectAndRecord`. -/
inductive UiCall
  | onStatus (s : String)
  | onAsr (t : String)
  | onToken (t : String)
  | onTurnDone
  | onDone
  | onPlaybackState (b : Bool)
  | onHangup
  deriving Repr, DecidableEq

/-- Observable effects of one event-handler run, in program order.
`cleanupRun` marks one execution of the body of `cleanup()` (closing the
socket, unsubscribing mic and playback listeners, stopping the mic — the
individually modelled parts of that body appear as further effects).
`consoleWarn` would mark a `console.warn` call; `connectAndRecord`
contains none, so no step of the model emits it. -/
inductive ClientEff
  | send (f : WsFrame)
  | post (p : PlayerPost)
  | ui (u : UiCall)
  | cleanupRun
  | consoleWarn
  deriving Repr, DecidableEq

/-- The mutable state of one `connectAndRecord` invocation that the
modelled handlers read or write: the socket's ready state, the `closed`
cleanup-guard, `hangupPending`, `finalSegmentReceived`, and the
`playerIsPlaying` mirror of the worklet state.  (The VAD hysteresis
counters and `lastRampAt` only feed logging and `triggerRampDown`,
modelled separately.) -/
structure ClientState where
  ready : WsReadyState
  closed : Bool
  hangupPending : Bool
  finalSegmentReceived : Bool
  playerIsPlaying : Bool
  deriving Repr, DecidableEq

/-- State when `connectAndRecord` returns: socket still connecting, all
flags false. -/
def initClient : ClientState :=
  { ready := .CONNECTING, closed := false, hangupPending := false,
    finalSegmentReceived := false, playerIsPlaying := false }

/-- `ws.send` wrapped in the source's guards/`try`-blocks: a frame goes
out only when the socket is OPEN (otherwise `send` throws — always
caught — or the data is discarded). -/
def trySend (s : ClientState) (f : WsFrame) : List ClientEff :=
  if s.ready = .OPEN then [.send f] else []

/-- `MAX_WS_BUFFER = 2000` — high watermark for the mic uplink
(`src/lib/ws.ts` line 886). -/
def MAX_WS_BUFFER : ℕ := 2000

/-- `RAMP_MS = 250` (`src/lib/ws.ts` line 581). -/
def RAMP_MS : ℕ := 250

/-- `RAMP_COOLDOWN_MS = 600`. -/
def RAMP_COOLDOWN_MS : ℚ := 600

/-- `triggerRampDown` (`src/lib/ws.ts`): posts
`{type:'ramp_down', ms: RAMP_MS}` to the player worklet unless the bot is
not speaking or the cooldown since `lastRampAt` has not elapsed (`now`
and `lastRampAt` are `performance.now()` readings). -/
def triggerRampDown (playerIsPlaying : Bool) (now lastRampAt : ℚ) :
    Option PCMPlayer.PlayerMsg :=
  if !playerIsPlaying then none
  else if now - lastRampAt < RAMP_COOLDOWN_MS then none
  else some (.rampDown RAMP_MS)

/-- `cleanup()` (`src/lib/ws.ts` lines 893–914): a no-op when `closed`
is already set; otherwise set `closed`, close the socket, unsubscribe
the mic and playback listeners, stop the mic, post `clear` to the player
worklet, and invoke `onDone`. -/
def cleanup (s : ClientState) : ClientState × List ClientEff :=
  if s.closed then (s, [])
  else ({ s with closed := true, ready := .CLOSED },
        [.cleanupRun, .post .clear, .ui .onDone])

/-- The `switch (msg.type)` body of `ws.onmessage` for text frames. -/
def handleText (s : ClientState) : ServerMsg → ClientState × List ClientEff
  | .status m => (s, [.ui (.onStatus m)])
  | .asrFinal t => (s, [.post .clear, .ui (.onAsr t)])
  | .llmToken t => (s, [.ui (.onToken t)])
  | .segmentDone isFinal =>
    if isFinal then
      -- sets finalSegmentReceived := true, then sends immediately (and
      -- resets the flag) when playback has already stopped
      if s.playerIsPlaying then ({ s with finalSegmentReceived := true }, [])
      else ({ s with finalSegmentReceived := false },
            trySend s .finalAudioComplete)
    else (s, [])
  | .turnDone => (s, [.ui .onTurnDone])
  | .done => cleanup s
  | .hangup => ({ s with hangupPending := true }, [.ui .onHangup])

/-- External events driving one `connectAndRecord` session:
socket open/error/close, inbound text and binary frames, a captured mic
frame (with the socket's current `bufferedAmount`), a playback-state
message from the worklet, a call of the returned `stop`, and the firing
of the 5-second force-close timer that `stop` schedules. -/
inductive ClientEvent
  | wsOpen
  | wsText (m : ServerMsg)
  | wsBinary (payload : ℕ)
  | micFrame (bufferedAmount : ℕ) (payload : ℕ)
  | playback (isPlaying : Bool)
  | stopCall
  | stopTimeout
  | wsError
  | wsClose
  deriving Repr, DecidableEq

/-- One event-handler execution of `connectAndRecord`, returning the new
state and the effects in program order.

* `wsOpen` — `ws.onopen`: the socket becomes OPEN and
  `{"type":"start","persona":p}` is sent.
* `wsText` / `wsBinary` — `ws.onmessage`; frames are only delivered on
  an open socket.  Binary frames are pushed to the player worklet.
* `micFrame` — the `onAudio` callback (removed by `unsubMic` once
  `cleanup` ran): drop unless the socket is OPEN and `bufferedAmount`
  is at most `MAX_WS_BUFFER`, else send the frame.
* `playback` — the `onPlaybackState` subscription (removed by
  `unsubPlayback` once `cleanup` ran): mirror the flag, notify the UI,
  and send `final_audio_complete` once if the final segment was received
  and playback stopped.
* `stopCall` — the returned `stop()`: no-op when closed, else send
  `{"type":"stop"}` and schedule `stopTimeout`.
* `stopTimeout` — the scheduled timer: `if (!closed) cleanup()`.
* `wsError` — `ws.onerror`: `onStatus "error"` then `cleanup`.
* `wsClose` — `ws.onclose = cleanup`. -/
def step (persona : String) (s : ClientState) :
    ClientEvent → ClientState × List ClientEff
  | .wsOpen =>
    if s.ready = .CONNECTING then
      ({ s with ready := .OPEN }, [.send (.start persona)])
    else (s, [])
  | .wsText m => if s.ready = .OPEN then handleText s m else (s, [])
  | .wsBinary payload =>
    if s.ready = .OPEN then (s, [.post (.push payload)]) else (s, [])
  | .micFrame bufferedAmount payload =>
    if s.closed then (s, [])
    else if s.ready ≠ .OPEN then (s, [])
    else if MAX_WS_BUFFER < bufferedAmount then (s, [])
    else (s, [.send (.mic payload)])
  | .playback b =>
    if s.closed then (s, [])
    else
      let s1 := { s with playerIsPlaying := b }
      if s1.finalSegmentReceived ∧ b = false then
        ({ s1 with finalSegmentReceived := false },
         ClientEff.ui (.onPlaybackState b) :: trySend s1 .finalAudioComplete)
      else (s1, [.ui (.onPlaybackState b)])
  | .stopCall => if s.closed then (s, []) else (s, trySend s .stop)
  | .stopTimeout => if s.closed then (s, []) else cleanup s
  | .wsError =>
    let r := cleanup s
    (r.1, .ui (.onStatus "error") :: r.2)
  | .wsClose => cleanup s

/-- Run a list of events from a state, accumulating effects in order. -/
def run (persona : String) (s : ClientState) :
    List ClientEvent → ClientState × List ClientEff
  | [] => (s, [])
  | e :: es =>
    let r := step persona s e
    let r2 := run persona r.1 es
    (r2.1, r.2 ++ r2.2)

/-- The frames actually sent on the socket, in order. -/
def sentFrames (effs : List ClientEff) : List WsFrame :=
  effs.filterMap fun e => match e with | .send f => some f | _ => none

end WsClient

namespace Feedback

/-- `{correct, total}` score pair (post-call scorecard, `src/App.tsx`). -/
structure Score where
  correct : ℕ
  total : ℕ
  deriving Repr, DecidableEq

/-- One evaluation criterion: `{name, passed}`. -/
structure Criterion where
  name : String
  passed : Bool
  deriving Repr, DecidableEq

/-- One scorecard category: `{name, score, criteria}`. -/
structure Category where
  name : String
  score : Score
  criteria : List Criterion
  deriving Repr, DecidableEq

/-- The scorecard object: `{overallScore, categories}`. -/
structure Scorecard where
  overallScore : Score
  categories : List Category
  deriving Repr, DecidableEq

/-- `mockScorecard` from `src/App.tsx` (lines 334–380), verbatim. -/
def mockScorecard : Scorecard :=
  { overallScore := { correct := 2, total := 9 },
    categories :=
      [ { name := "Opener",
          score := { correct := 1, total := 2 },
          criteria :=
            [ { name := "Permission based opener?", passed := true },
              { name := "Used research on prospect?", passed := false } ] },
        { name := "Social Proof",
          score := { correct := 1, total := 2 },
          criteria :=
            [ { name := "Provided social proof?", passed := true },
              { name := "Asked if social proof was relevant?",
                passed := false } ] },
        { name := "Discovery",
          score := { correct := 0, total := 1 },
          criteria :=
            [ { name := "SDR asked for preconceptions of product?",
                passed := false } ] },
        { name := "Closing",
          score := { correct := 0, total := 2 },
          criteria :=
            [ { name := "Next steps agreed upon?", passed := false },
              { name := "Follow-up meeting booked?", passed := false } ] },
        { name := "Takeaway",
          score := { correct := 0, total := 2 },
          criteria :=
            [ { name := "Re-confirmed that the time works for the prospect?",
                passed := false },
              { name := "Asked for success criteria for next call?",
                passed := false } ] } ] }

end Feedback

/-- A client state with the socket open mid-session, used as the concrete
input of counterexamples and witnesses. -/
def openClient : WsClient.ClientState :=
  { ready := .OPEN, closed := false, hangupPending := false,
    finalSegmentReceived := false, playerIsPlaying := false }

/-- A playing player state with queued audio and full gain, used as the
concrete input of counterexamples and witnesses. -/
def playingPlayer : PCMPlayer.PlayerState :=
  { queue := [[1000, -1000], [2000]], ptr := 0, isPlaying := true,
    gain := 1, rampSamplesLeft := 0, rampStep := 0 }

/-- Number of times the body of `cleanup()` executed, read off an effect
list. -/
def WsClient.cleanupCount (effs : List WsClient.ClientEff) : ℕ :=
  effs.count .cleanupRun

/-- Invariant tying the socket's ready state to the frames sent so far:
nothing is sent while CONNECTING; once OPEN, the first frame sent was
`start persona`; the head of any non-empty sent list is `start persona`;
and `start persona` is sent at most once. -/
def WsClient.SentInv (p : String) (s : WsClient.ClientState)
    (fr : List WsClient.WsFrame) : Prop :=
  (s.ready = .CONNECTING → fr = []) ∧
  (s.ready = .OPEN → fr.head? = some (.start p)) ∧
  (fr ≠ [] → fr.head? = some (.start p)) ∧
  fr.count (.start p) ≤ 1

/-- Number of `final_audio_complete` frames in an effect list. -/
def WsClient.facCount (effs : List WsClient.ClientEff) : ℕ :=
  effs.count (.send .finalAudioComplete)

/-- Number of `segment_done is_final=true` messages in an event list. -/
def WsClient.finalSegCount (evs : List WsClient.ClientEvent) : ℕ :=
  evs.count (.wsText (.segmentDone true))

/-- `finalSegmentReceived` as a 0/1 counter. -/
def WsClient.fsrN (s : WsClient.ClientState) : ℕ :=
  if s.finalSegmentReceived then 1 else 0

/-- Gain invariant of the playback worklet: the gain lies in `[0, 1]`,
and during an active ramp the step is non-positive and exactly reaches
zero after the remaining samples (`gain + rampSamplesLeft · rampStep
= 0`), which is how `ramp_down` initializes it. -/
def PCMPlayer.GInv (s : PCMPlayer.PlayerState) : Prop :=
  0 ≤ s.gain ∧ s.gain ≤ 1 ∧
  (0 < s.rampSamplesLeft →
    s.rampStep ≤ 0 ∧ s.gain + (s.rampSamplesLeft : ℚ) * s.rampStep = 0)

/-- Log invariant of the worklet's posted `{type:'state'}` messages:
the posted values strictly alternate, the most recently posted value
equals the current `isPlaying` flag (with `false` the implicit value
before any post), and the first posted value (if any) is `true`. -/
def PCMPlayer.SInv (s : PCMPlayer.PlayerState) (log : List Bool) : Prop :=
  List.Chain' (· ≠ ·) log ∧
  log.getLast?.getD false = s.isPlaying ∧
  (log = [] ∨ log.head? = some true)

-- sanity checks (concrete evaluation of the model)
example :
    PCMProc.requiredInputSamples 48000 = 3000 := by
  norm_num [PCMProc.requiredInputSamples, PCMProc.targetOutSamples] <;> decide
example :
    (PCMProc.resampleTo16k 48000 (List.replicate 3000 (1/2))).length
      = 1000 := by
  simp only [PCMProc.resampleTo16k, List.length_map, List.length_range,
    List.length_replicate]
  norm_num <;> decide
example :
    (WsClient.run "A" WsClient.initClient
      [.wsOpen, .micFrame 0 7]).2
      = [.send (.start "A"), .send (.mic 7)] := by
  norm_num [WsClient.run, WsClient.step, WsClient.initClient,
    WsClient.trySend, WsClient.MAX_WS_BUFFER]
example :
    (PCMPlayer.onmessage PCMPlayer.initPlayer (.push [100, -200])).1.queue
      = [[100, -200]] := by
  norm_num [PCMPlayer.onmessage, PCMPlayer.initPlayer]
example :
    (PCMPlayer.onmessage PCMPlayer.initPlayer (.push [100])).2 = [true] := by
  norm_num [PCMPlayer.onmessage, PCMPlayer.initPlayer]
example :
    (PCMPlayer.processCall
      (PCMPlayer.onmessage PCMPlayer.initPlayer (.push [16384, -32768])).1
      4).2.1 = [1/2, -1, 0, 0] := by
  norm_num [PCMPlayer.processCall, PCMPlayer.loop, PCMPlayer.popSample,
    PCMPlayer.rampTick, clampQ, PCMPlayer.onmessage,
    PCMPlayer.initPlayer, List.replicate]

/-! ## Claim C7 — scorecard consistency -/

/-- C7: the post-call scorecard (`mockScorecard`, `src/App.tsx`) has
exactly 5 categories — Opener, Social Proof, Discovery, Closing,
Takeaway — with 2, 2, 1, 2, 2 criteria (9 in total); each category's
`score.total` equals its number of criteria; the overall total is 9; and
the overall correct count equals the sum of the per-category correct
counts. -/
theorem claim_C7_scorecard_consistent :
    (Feedback.mockScorecard.categories.map (·.name))
      = ["Opener", "Social Proof", "Discovery", "Closing", "Takeaway"] ∧
    (Feedback.mockScorecard.categories.map (·.criteria.length))
      = [2, 2, 1, 2, 2] ∧
    (Feedback.mockScorecard.categories.map (·.criteria.length)).sum = 9 ∧
    (∀ c ∈ Feedback.mockScorecard.categories,
      c.score.total = c.criteria.length) ∧
    Feedback.mockScorecard.overallScore.total = 9 ∧
    Feedback.mockScorecard.overallScore.correct
      = (Feedback.mockScorecard.categories.map (·.score.correct)).sum := by
  decide

/-! ## Claim C3 — microphone uplink backpressure -/

/-- C3, counterexample: with the socket OPEN and `bufferedAmount = 2001`
(above the 2 000-byte watermark), the mic-frame callback drops the frame
*silently* — its effect list is empty, so in particular no warning
(`consoleWarn`) is emitted, contradicting the claim that the frame is
"dropped with a warning". -/
theorem claim_C3_counterexample :
    WsClient.MAX_WS_BUFFER < 2001 ∧
    (WsClient.step "A" openClient (.micFrame 2001 7)).2 = [] ∧
    WsClient.ClientEff.consoleWarn
      ∉ (WsClient.step "A" openClient (.micFrame 2001 7)).2 := by
  decide

/-- C3 (amended): for every captured microphone frame, if the socket is
not OPEN or `bufferedAmount` exceeds `MAX_WS_BUFFER = 2000`, the frame is
dropped *silently* (no warning, no other effect, no state change, and in
particular no blocking of the producer); otherwise the frame is sent on
the socket. -/
theorem claim_C3_mic_uplink (p : String) (s : WsClient.ClientState)
    (ba payload : ℕ) (h : s.closed = false) :
    (WsClient.step p s (.micFrame ba payload)).2
      = (if s.ready = .OPEN ∧ ba ≤ WsClient.MAX_WS_BUFFER
         then [.send (.mic payload)] else []) ∧
    WsClient.ClientEff.consoleWarn
      ∉ (WsClient.step p s (.micFrame ba payload)).2 ∧
    (WsClient.step p s (.micFrame ba payload)).1 = s := by
  simp only [WsClient.step, h, Bool.false_eq_true, if_false]
  constructor
  · split_ifs with h1 h2 h3 h4 <;> simp_all <;> omega
  · constructor
    · split_ifs <;> simp
    · split_ifs <;> rfl

/-- C3, witness: the amended theorem applied at the concrete open state,
`bufferedAmount = 100`, payload 7 — the frame is sent. -/
theorem claim_C3_witness :
    (WsClient.step "A" openClient (.micFrame 100 7)).2
      = [.send (.mic 7)] ∧
    WsClient.ClientEff.consoleWarn
      ∉ (WsClient.step "A" openClient (.micFrame 100 7)).2 ∧
    (WsClient.step "A" openClient (.micFrame 100 7)).1 = openClient := by
  have h := claim_C3_mic_uplink "A" openClient 100 7 rfl
  simpa using h

/-! ## Claim C1 — `clear` vs the 250 ms fade -/

/-- C1, counterexample: on receipt of `clear` the worklet discards its
non-empty queue *in the same step*, with the gain still at `1` and no
ramp ever activated — no linear fade-to-zero is applied before (or
while) the queued audio is discarded, contradicting the claim that
"queued audio is never discarded without that fade having been applied
first". -/
theorem claim_C1_counterexample :
    playingPlayer.queue ≠ [] ∧ playingPlayer.gain = 1 ∧
    playingPlayer.rampSamplesLeft = 0 ∧
    (PCMPlayer.onmessage playingPlayer .clear).1.queue = [] ∧
    (PCMPlayer.onmessage playingPlayer .clear).1.gain = 1 ∧
    (PCMPlayer.onmessage playingPlayer .clear).1.rampSamplesLeft = 0 := by
  refine ⟨by decide, rfl, rfl, rfl, rfl, rfl⟩

/-- C1 (amended): the `clear` message itself discards the queued audio
immediately and without any fade — the queue empties, `ptr` and the ramp
reset, and the gain is left unchanged.  The 250 ms linear fade-to-zero
is performed by the *separate* `ramp_down` message: on barge-in the
client's `triggerRampDown` posts `{type:'ramp_down', ms: RAMP_MS}` with
`RAMP_MS = 250`, and the worklet then ramps its gain linearly to zero
over `floor(48000 · 250/1000) = 12000` samples (250 ms at the 48 kHz
playback rate) without discarding any queued audio. -/
theorem claim_C1_clear_and_rampdown (s : PCMPlayer.PlayerState)
    (hRamp : s.rampSamplesLeft = 0) (hGain : 1/10000 < s.gain) :
    ((PCMPlayer.onmessage s .clear).1.queue = [] ∧
     (PCMPlayer.onmessage s .clear).1.ptr = 0 ∧
     (PCMPlayer.onmessage s .clear).1.gain = s.gain ∧
     (PCMPlayer.onmessage s .clear).1.rampSamplesLeft = 0) ∧
    ((PCMPlayer.onmessage s (.rampDown WsClient.RAMP_MS)).1.queue
        = s.queue ∧
     (PCMPlayer.onmessage s (.rampDown WsClient.RAMP_MS)).1.rampSamplesLeft
        = 12000 ∧
     (PCMPlayer.onmessage s (.rampDown WsClient.RAMP_MS)).1.rampStep
        = (0 - s.gain) / 12000) ∧
    (∀ now lastRampAt : ℚ, ¬ now - lastRampAt < WsClient.RAMP_COOLDOWN_MS →
      WsClient.triggerRampDown true now lastRampAt
        = some (.rampDown WsClient.RAMP_MS)) := by
  refine ⟨⟨rfl, rfl, rfl, rfl⟩, ?_, ?_⟩
  · have hguard : ¬ (0 < s.rampSamplesLeft ∨ s.gain ≤ 1/10000) := by
      push_neg
      exact ⟨by omega, hGain⟩
    have h12000 : max 1 (PCMPlayer.sampleRate * max 1 WsClient.RAMP_MS / 1000)
        = 12000 := by decide
    simp only [PCMPlayer.onmessage, hguard, if_false, h12000]
    norm_num
  · intro now lastRampAt hcool
    simp [WsClient.triggerRampDown, hcool]

/-- C1, witness: the amended theorem applied at the concrete playing
state (gain 1, no active ramp): `clear` empties the queue keeping
gain 1; `ramp_down 250` keeps the queue and starts a 12 000-sample ramp
with step `-1/12000`; and a barge-in past the cooldown posts exactly
`ramp_down 250`. -/
theorem claim_C1_witness :
    ((PCMPlayer.onmessage playingPlayer .clear).1.queue = [] ∧
     (PCMPlayer.onmessage playingPlayer .clear).1.ptr = 0 ∧
     (PCMPlayer.onmessage playingPlayer .clear).1.gain = playingPlayer.gain ∧
     (PCMPlayer.onmessage playingPlayer .clear).1.rampSamplesLeft = 0) ∧
    ((PCMPlayer.onmessage playingPlayer
        (.rampDown WsClient.RAMP_MS)).1.queue = playingPlayer.queue ∧
     (PCMPlayer.onmessage playingPlayer
        (.rampDown WsClient.RAMP_MS)).1.rampSamplesLeft = 12000 ∧
     (PCMPlayer.onmessage playingPlayer
        (.rampDown WsClient.RAMP_MS)).1.rampStep
        = (0 - playingPlayer.gain) / 12000) ∧
    WsClient.triggerRampDown true 1000 0 = some (.rampDown WsClient.RAMP_MS)
    := by
  have h := claim_C1_clear_and_rampdown playingPlayer rfl
    (by norm_num [playingPlayer])
  exact ⟨h.1, h.2.1, h.2.2 1000 0 (by norm_num [WsClient.RAMP_COOLDOWN_MS])⟩

/-! ## Claim C10 — `asr_final` clears the previous turn's audio -/

/-- C10: on every `asr_final` the client posts `clear` to the playback
worklet and only then delivers the transcript to the UI handler (the
effect list is literally `[post clear, onAsr text]`); and processing
`clear` in the worklet empties the queue immediately with no fade (gain
unchanged, no ramp active afterwards), so no chunk queued before the
message survives the handler. -/
theorem claim_C10_asr_final_clears (p : String)
    (s : WsClient.ClientState) (t : String)
    (hOpen : s.ready = .OPEN) :
    (WsClient.step p s (.wsText (.asrFinal t))).2
      = [.post .clear, .ui (.onAsr t)] ∧
    (∀ ps : PCMPlayer.PlayerState,
      (PCMPlayer.onmessage ps .clear).1.queue = [] ∧
      (PCMPlayer.onmessage ps .clear).1.gain = ps.gain ∧
      (PCMPlayer.onmessage ps .clear).1.rampSamplesLeft = 0) := by
  refine ⟨?_, fun ps => ⟨rfl, rfl, rfl⟩⟩
  simp [WsClient.step, hOpen, WsClient.handleText]

/-- C10, witness: the theorem applied at the concrete open client state
and the concrete playing player state. -/
theorem claim_C10_witness :
    (WsClient.step "A" openClient (.wsText (.asrFinal "hello"))).2
      = [.post .clear, .ui (.onAsr "hello")] ∧
    (PCMPlayer.onmessage playingPlayer .clear).1.queue = [] := by
  have h := claim_C10_asr_final_clears "A" openClient "hello" rfl
  exact ⟨h.1, (h.2 playingPlayer).1⟩

/-! ## Claim C4 — capture worklet chunking at 48 kHz -/

/-- The clamp really lands in `[-1, 1]`. -/
theorem clampQ_bounds (x : ℚ) : -1 ≤ clampQ x ∧ clampQ x ≤ 1 := by
  simp only [clampQ]
  split_ifs <;> constructor <;> linarith

/-- A clamped sample converts to an int16-representable integer. -/
theorem PCMProc.toInt16_bounds (v : ℚ) (h1 : -1 ≤ v) (h2 : v ≤ 1) :
    -32768 ≤ PCMProc.toInt16 v ∧ PCMProc.toInt16 v ≤ 32767 := by
  unfold PCMProc.toInt16 PCMProc.truncToward0
  split_ifs with hv hq hq
  · constructor
    · have hle : (-32768 : ℚ) ≤ v * 32768 := by nlinarith
      have h3 := Int.le_ceil (v * 32768)
      exact_mod_cast le_trans hle h3
    · have h0 : ⌈v * 32768⌉ ≤ 0 := Int.ceil_le.mpr (by push_cast; nlinarith)
      omega
  · exact absurd (mul_neg_of_neg_of_pos hv (by norm_num)) hq
  · push_neg at hv
    exact absurd hq (not_lt.mpr (mul_nonneg hv (by norm_num)))
  · push_neg at hv
    constructor
    · have h0 : (0 : ℤ) ≤ ⌊v * 32767⌋ :=
        Int.le_floor.mpr (by push_cast; nlinarith)
      omega
    · have hle : v * 32767 ≤ ((32767 : ℤ) : ℚ) := by push_cast; nlinarith
      have hf := Int.floor_le_floor hle
      simpa using hf

/-- Length of the resampler output: `floor (inputLength / ratio)`. -/
theorem PCMProc.length_resampleTo16k (sr : ℕ) (f : List ℚ) :
    (PCMProc.resampleTo16k sr f).length
      = (⌊(f.length : ℚ) / ((sr : ℚ) / 16000)⌋).toNat := by
  simp only [PCMProc.resampleTo16k, List.length_map, List.length_range]

/-- Every resampler output sample is int16-representable. -/
theorem PCMProc.mem_resampleTo16k_bounds (sr : ℕ) (f : List ℚ) :
    ∀ v ∈ PCMProc.resampleTo16k sr f, -32768 ≤ v ∧ v ≤ 32767 := by
  intro v hv
  simp only [PCMProc.resampleTo16k, List.mem_map] at hv
  obtain ⟨i, -, rfl⟩ := hv
  exact PCMProc.toInt16_bounds _ (clampQ_bounds _).1 (clampQ_bounds _).2

/-- At a 48 kHz capture rate the worklet needs 3 000 input samples per
emitted chunk. -/
theorem PCMProc.req48 : PCMProc.requiredInputSamples 48000 = 3000 := by
  norm_num [PCMProc.requiredInputSamples, PCMProc.targetOutSamples] <;> decide

/-- Every chunk emitted by the capture loop is the resampling of a slice
of exactly `requiredInputSamples` input samples. -/
theorem PCMProc.mem_emitChunks (sr : ℕ) :
    ∀ (N : ℕ) (buf : List ℚ), buf.length ≤ N →
      ∀ c ∈ (PCMProc.emitChunks sr buf).1,
        ∃ sl : List ℚ, sl.length = PCMProc.requiredInputSamples sr ∧
          c = PCMProc.resampleTo16k sr sl := by
  intro N
  induction N with
  | zero =>
    intro buf hb c hc
    rw [PCMProc.emitChunks] at hc
    split at hc
    · omega
    · simp at hc
  | succ n ih =>
    intro buf hb c hc
    rw [PCMProc.emitChunks] at hc
    split at hc
    next hreq =>
      rcases List.mem_cons.mp hc with h | h
      · refine ⟨buf.take (PCMProc.requiredInputSamples sr), ?_, h⟩
        rw [List.length_take]
        omega
      · exact ih (buf.drop (PCMProc.requiredInputSamples sr))
          (by rw [List.length_drop]; omega) c h
    next => simp at hc

/-- C4: with the capture `AudioContext` at 48 kHz, the worklet consumes
3 000 input samples per chunk and every binary frame it posts holds
exactly `targetOutSamples = 1000` int16 samples (2 000 bytes) of 16 kHz
audio — a 62.5 ms chunk — each sample produced by the
linear-interpolation resampler (`resampleTo16k`) with its value clamped
to `[-1, 1]` before int16 conversion, hence int16-representable. -/
theorem claim_C4_capture_chunks :
    PCMProc.requiredInputSamples 48000 = 3000 ∧
    (∀ buf : List ℚ, ∀ c ∈ (PCMProc.emitChunks 48000 buf).1,
      c.length = PCMProc.targetOutSamples ∧ 2 * c.length = 2000 ∧
      ∀ v ∈ c, -32768 ≤ v ∧ v ≤ 32767) ∧
    ((PCMProc.targetOutSamples : ℚ) / 16000) * 1000 = 125 / 2 := by
  refine ⟨PCMProc.req48, ?_, by norm_num [PCMProc.targetOutSamples]⟩
  intro buf c hc
  obtain ⟨sl, hsl, rfl⟩ :=
    PCMProc.mem_emitChunks 48000 buf.length buf le_rfl c hc
  rw [PCMProc.req48] at hsl
  have hlen : (PCMProc.resampleTo16k 48000 sl).length
      = PCMProc.targetOutSamples := by
    rw [PCMProc.length_resampleTo16k, hsl, PCMProc.targetOutSamples]
    norm_num <;> decide
  exact ⟨hlen, by rw [hlen]; rfl,
    PCMProc.mem_resampleTo16k_bounds 48000 sl⟩

/-- C4, witness: the single chunk emitted from a 3 000-sample silent
buffer has 1 000 samples and int16-representable values. -/
theorem claim_C4_witness :
    (PCMProc.resampleTo16k 48000 (List.replicate 3000 0)).length
        = PCMProc.targetOutSamples ∧
    ∀ v ∈ PCMProc.resampleTo16k 48000 (List.replicate 3000 0),
      -32768 ≤ v ∧ v ≤ 32767 := by
  have hchunks : (PCMProc.emitChunks 48000 (List.replicate 3000 (0:ℚ))).1
      = [PCMProc.resampleTo16k 48000 (List.replicate 3000 0)] := by
    rw [PCMProc.emitChunks]
    simp only [PCMProc.req48, List.length_replicate, List.drop_replicate,
      List.take_replicate]
    norm_num
    rw [PCMProc.emitChunks]
    simp [PCMProc.req48]
  have h := claim_C4_capture_chunks.2.1 (List.replicate 3000 0)
    (PCMProc.resampleTo16k 48000 (List.replicate 3000 0))
    (by rw [hchunks]; exact List.mem_singleton.mpr rfl)
  exact ⟨h.1, h.2.2⟩

/-! ## Claim C5 — `stop` / `cleanup` idempotence -/

/-- Per-step accounting: a step emits one `cleanupRun` exactly when it
flips `closed` from `false` to `true`; `closed` is never unset. -/
theorem WsClient.step_cleanupCount (p : String) (s : WsClient.ClientState)
    (e : WsClient.ClientEvent) :
    WsClient.cleanupCount (WsClient.step p s e).2
        + (if s.closed then 1 else 0)
      = (if (WsClient.step p s e).1.closed then 1 else 0) := by
  cases e with
  | wsText m =>
    cases m <;>
      simp [WsClient.step, WsClient.handleText, WsClient.cleanup,
        WsClient.trySend, WsClient.cleanupCount] <;>
      split_ifs <;> simp_all [List.count_cons]
  | _ =>
    simp [WsClient.step, WsClient.cleanup, WsClient.trySend,
      WsClient.cleanupCount] <;>
    split_ifs <;> simp_all [List.count_cons]

/-- Trace-level accounting: over any run, the number of `cleanupRun`
effects equals the change of the `closed` flag. -/
theorem WsClient.run_cleanupCount (p : String) :
    ∀ (evs : List WsClient.ClientEvent) (s : WsClient.ClientState),
      WsClient.cleanupCount (WsClient.run p s evs).2
          + (if s.closed then 1 else 0)
        = (if (WsClient.run p s evs).1.closed then 1 else 0) := by
  intro evs
  induction evs with
  | nil => intro s; simp [WsClient.run, WsClient.cleanupCount]
  | cons e es ih =>
    intro s
    have hstep := WsClient.step_cleanupCount p s e
    have hih := ih (WsClient.step p s e).1
    simp only [WsClient.run, WsClient.cleanupCount, List.count_append] at *
    omega

/-- C5: the cleanup routine runs at most once along any event trace (its
count equals the final `closed` flag, which starts `false` and is never
reset); `cleanup` is idempotent; and calling `stop()` twice — which
sends `{"type":"stop"}` twice — leads to exactly the same final state as
calling it once, with the cleanup body executing exactly once in both
cases. -/
theorem claim_C5_stop_idempotent :
    (∀ (p : String) (evs : List WsClient.ClientEvent),
      WsClient.cleanupCount (WsClient.run p WsClient.initClient evs).2 ≤ 1) ∧
    (∀ s : WsClient.ClientState,
      (WsClient.cleanup (WsClient.cleanup s).1).1 = (WsClient.cleanup s).1 ∧
      (WsClient.cleanup (WsClient.cleanup s).1).2 = []) ∧
    (∀ p : String,
      (WsClient.run p WsClient.initClient
          [.wsOpen, .stopCall, .stopCall, .stopTimeout, .stopTimeout]).1
        = (WsClient.run p WsClient.initClient
            [.wsOpen, .stopCall, .stopTimeout]).1 ∧
      WsClient.cleanupCount (WsClient.run p WsClient.initClient
          [.wsOpen, .stopCall, .stopCall, .stopTimeout, .stopTimeout]).2 = 1 ∧
      WsClient.cleanupCount (WsClient.run p WsClient.initClient
          [.wsOpen, .stopCall, .stopTimeout]).2 = 1) := by
  refine ⟨?_, ?_, ?_⟩
  · intro p evs
    have h := WsClient.run_cleanupCount p evs WsClient.initClient
    rw [if_neg (by simp [WsClient.initClient])] at h
    split_ifs at h <;> omega
  · intro s
    by_cases h : s.closed <;>
      simp [WsClient.cleanup, h]
  · intro p
    refine ⟨rfl, rfl, rfl⟩

/-! ## Claim C6 — first frame on the socket is `start` -/

/-- `sentFrames` distributes over effect-list concatenation. -/
theorem WsClient.sentFrames_append (a b : List WsClient.ClientEff) :
    WsClient.sentFrames (a ++ b)
      = WsClient.sentFrames a ++ WsClient.sentFrames b :=
  List.filterMap_append a b _

/-- Appending one non-`start` frame while OPEN preserves the invariant
(for any successor state with the same ready state). -/
theorem WsClient.sentInv_append (p : String)
    (s s' : WsClient.ClientState) (f : WsClient.WsFrame)
    (fr : List WsClient.WsFrame) (h : WsClient.SentInv p s fr)
    (hOpen : s.ready = .OPEN) (hready : s'.ready = s.ready)
    (hf : f ≠ .start p) : WsClient.SentInv p s' (fr ++ [f]) := by
  obtain ⟨h1, h2, h3, h4⟩ := h
  have hhead := h2 hOpen
  obtain ⟨a, t, rfl⟩ : ∃ a t, fr = a :: t := by
    cases fr with
    | nil => simp at hhead
    | cons a t => exact ⟨a, t, rfl⟩
  have hcount : (((a :: t) ++ [f]).count (.start p)) ≤ 1 := by
    rw [List.count_append]
    have : ([f].count (WsClient.WsFrame.start p)) = 0 := by
      simp [List.count_singleton, hf]
    omega
  refine ⟨?_, ?_, ?_, hcount⟩
  · intro hc
    rw [hready, hOpen] at hc
    cases hc
  · intro _
    simpa using hhead
  · intro _
    simpa using hhead

/-- A step that sends nothing and keeps the ready state preserves the
invariant. -/
theorem WsClient.sentInv_same (p : String) (s s' : WsClient.ClientState)
    (fr : List WsClient.WsFrame) (h : WsClient.SentInv p s fr)
    (hready : s'.ready = s.ready) : WsClient.SentInv p s' fr := by
  obtain ⟨h1, h2, h3, h4⟩ := h
  exact ⟨fun hc => h1 (hready ▸ hc), fun hc => h2 (hready ▸ hc), h3, h4⟩

/-- A step that sends nothing and closes the socket preserves the
invariant. -/
theorem WsClient.sentInv_closed (p : String) (s s' : WsClient.ClientState)
    (fr : List WsClient.WsFrame) (h : WsClient.SentInv p s fr)
    (hc : s'.ready = .CLOSED) : WsClient.SentInv p s' fr := by
  obtain ⟨h1, h2, h3, h4⟩ := h
  refine ⟨fun hco => ?_, fun hco => ?_, h3, h4⟩
  · rw [hc] at hco; cases hco
  · rw [hc] at hco; cases hco

/-- One step preserves the sent-frames invariant. -/
theorem WsClient.step_sentInv (p : String) (s : WsClient.ClientState)
    (e : WsClient.ClientEvent) (fr : List WsClient.WsFrame)
    (h : WsClient.SentInv p s fr) :
    WsClient.SentInv p (WsClient.step p s e).1
      (fr ++ WsClient.sentFrames (WsClient.step p s e).2) := by
  cases e with
  | wsOpen =>
    by_cases hc : s.ready = .CONNECTING
    · have hfr : fr = [] := h.1 hc
      subst hfr
      simp only [WsClient.step, hc, if_pos]
      refine ⟨?_, ?_, ?_, ?_⟩ <;>
        simp [WsClient.sentFrames, List.count_singleton]
    · simp only [WsClient.step, hc, if_neg, ite_false]
      simpa [WsClient.sentFrames] using h
  | wsText m =>
    by_cases hO : s.ready = .OPEN
    · simp only [WsClient.step, hO, if_pos]
      cases m with
      | status msg => simpa [WsClient.handleText, WsClient.sentFrames] using
          WsClient.sentInv_same p s s fr h rfl
      | asrFinal t => simpa [WsClient.handleText, WsClient.sentFrames] using
          WsClient.sentInv_same p s s fr h rfl
      | llmToken t => simpa [WsClient.handleText, WsClient.sentFrames] using
          WsClient.sentInv_same p s s fr h rfl
      | turnDone => simpa [WsClient.handleText, WsClient.sentFrames] using
          WsClient.sentInv_same p s s fr h rfl
      | hangup =>
        simpa [WsClient.handleText, WsClient.sentFrames] using
          WsClient.sentInv_same p s { s with hangupPending := true } fr h rfl
      | done =>
        by_cases hcl : s.closed
        · simpa [WsClient.handleText, WsClient.cleanup, hcl,
            WsClient.sentFrames] using WsClient.sentInv_same p s s fr h rfl
        · simpa [WsClient.handleText, WsClient.cleanup, hcl,
            WsClient.sentFrames] using
            WsClient.sentInv_closed p s
              { s with closed := true, ready := .CLOSED } fr h rfl
      | segmentDone b =>
        cases b with
        | false => simpa [WsClient.handleText, WsClient.sentFrames] using
            WsClient.sentInv_same p s s fr h rfl
        | true =>
          by_cases hpl : s.playerIsPlaying
          · simpa [WsClient.handleText, hpl, WsClient.sentFrames] using
              WsClient.sentInv_same p s
                { s with finalSegmentReceived := true } fr h rfl
          · simpa [WsClient.handleText, hpl, WsClient.trySend, hO,
              WsClient.sentFrames] using
              WsClient.sentInv_append p s
                { s with finalSegmentReceived := false }
                .finalAudioComplete fr h hO rfl (by simp)
    · simp only [WsClient.step, hO, if_neg, ite_false]
      simpa [WsClient.sentFrames] using h
  | wsBinary payload =>
    by_cases hO : s.ready = .OPEN <;>
      simp only [WsClient.step, hO, ite_true, ite_false, if_pos, if_neg,
        not_false_iff] <;>
      simpa [WsClient.sentFrames] using h
  | micFrame ba payload =>
    by_cases hcl : s.closed
    · simpa [WsClient.step, hcl, WsClient.sentFrames] using h
    · by_cases hO : s.ready = .OPEN
      · by_cases hba : WsClient.MAX_WS_BUFFER < ba
        · simpa [WsClient.step, hcl, hO, hba, WsClient.sentFrames] using h
        · simpa [WsClient.step, hcl, hO, hba, WsClient.sentFrames] using
            WsClient.sentInv_append p s s (.mic payload) fr h hO rfl (by simp)
      · simpa [WsClient.step, hcl, hO, WsClient.sentFrames] using h
  | playback b =>
    by_cases hcl : s.closed
    · simp only [WsClient.step, hcl, ite_true]
      simpa [WsClient.sentFrames] using h
    · by_cases hfsr : s.finalSegmentReceived ∧ b = false
      · by_cases hO : s.ready = .OPEN
        · simp only [WsClient.step, hcl, hfsr, ite_false, ite_true, if_pos,
            Bool.false_eq_true]
          simpa [WsClient.sentFrames, WsClient.trySend, hO, hfsr.2] using
            WsClient.sentInv_append p s
              { s with playerIsPlaying := b, finalSegmentReceived := false }
              .finalAudioComplete fr h hO rfl (by simp)
        · simp only [WsClient.step, hcl, hfsr]
          simpa [WsClient.sentFrames, WsClient.trySend, hO, hfsr.2] using
            WsClient.sentInv_same p s
              { s with playerIsPlaying := b, finalSegmentReceived := false }
              fr h rfl
      · simp only [WsClient.step, hcl, hfsr]
        simpa [WsClient.sentFrames, hfsr] using
          WsClient.sentInv_same p s { s with playerIsPlaying := b } fr h rfl
  | stopCall =>
    by_cases hcl : s.closed
    · simp only [WsClient.step, hcl, ite_true]
      simpa [WsClient.sentFrames] using h
    · by_cases hO : s.ready = .OPEN
      · simp only [WsClient.step, hcl, ite_false, Bool.false_eq_true]
        simpa [WsClient.sentFrames, WsClient.trySend, hO] using
          WsClient.sentInv_append p s s .stop fr h hO rfl (by simp)
      · simp only [WsClient.step, hcl, ite_false, Bool.false_eq_true]
        simpa [WsClient.sentFrames, WsClient.trySend, hO] using h
  | stopTimeout =>
    by_cases hcl : s.closed
    · simp only [WsClient.step, hcl, ite_true]
      simpa [WsClient.sentFrames] using h
    · simp only [WsClient.step, hcl, WsClient.cleanup, ite_false,
        Bool.false_eq_true]
      simpa [WsClient.sentFrames] using
        WsClient.sentInv_closed p s
          { s with closed := true, ready := .CLOSED } fr h rfl
  | wsError =>
    by_cases hcl : s.closed
    · simp only [WsClient.step, WsClient.cleanup, hcl, ite_true]
      simpa [WsClient.sentFrames] using h
    · simp only [WsClient.step, WsClient.cleanup, hcl, ite_false,
        Bool.false_eq_true]
      simpa [WsClient.sentFrames] using
        WsClient.sentInv_closed p s
          { s with closed := true, ready := .CLOSED } fr h rfl
  | wsClose =>
    by_cases hcl : s.closed
    · simp only [WsClient.step, WsClient.cleanup, hcl, ite_true]
      simpa [WsClient.sentFrames] using h
    · simp only [WsClient.step, WsClient.cleanup, hcl, ite_false,
        Bool.false_eq_true]
      simpa [WsClient.sentFrames] using
        WsClient.sentInv_closed p s
          { s with closed := true, ready := .CLOSED } fr h rfl

/-- The sent-frames invariant holds along any run. -/
theorem WsClient.run_sentInv (p : String) :
    ∀ (evs : List WsClient.ClientEvent) (s : WsClient.ClientState)
      (fr : List WsClient.WsFrame), WsClient.SentInv p s fr →
      WsClient.SentInv p (WsClient.run p s evs).1
        (fr ++ WsClient.sentFrames (WsClient.run p s evs).2) := by
  intro evs
  induction evs with
  | nil =>
    intro s fr h
    simpa [WsClient.run, WsClient.sentFrames] using h
  | cons e es ih =>
    intro s fr h
    have hstep := WsClient.step_sentInv p s e fr h
    have hrec := ih (WsClient.step p s e).1 _ hstep
    simpa [WsClient.run, WsClient.sentFrames_append,
      List.append_assoc] using hrec

/-- C6: on every connection, the list of frames the client sends is
either empty or starts with the `{"type":"start","persona":p}` text
frame — so `start` precedes every binary microphone frame — and `start`
is sent at most once (it is emitted exactly at the CONNECTING → OPEN
transition of `ws.onopen`). -/
theorem claim_C6_start_first (p : String)
    (evs : List WsClient.ClientEvent) :
    (WsClient.sentFrames (WsClient.run p WsClient.initClient evs).2 = [] ∨
     (WsClient.sentFrames
        (WsClient.run p WsClient.initClient evs).2).head?
       = some (.start p)) ∧
    (WsClient.sentFrames
        (WsClient.run p WsClient.initClient evs).2).count (.start p) ≤ 1
    := by
  have h0 : WsClient.SentInv p WsClient.initClient [] := by
    refine ⟨fun _ => rfl, fun hc => ?_, fun hc => absurd rfl hc, by simp⟩
    simp [WsClient.initClient] at hc
  have h := WsClient.run_sentInv p evs WsClient.initClient [] h0
  simp only [List.nil_append] at h
  obtain ⟨-, -, h3, h4⟩ := h
  refine ⟨?_, h4⟩
  by_cases hfr :
      WsClient.sentFrames (WsClient.run p WsClient.initClient evs).2 = []
  · exact Or.inl hfr
  · exact Or.inr (h3 hfr)

/-! ## Claim C2 — `final_audio_complete` discipline -/

/-- Per-step accounting: each step can send `final_audio_complete` only
by consuming either the incoming final `segment_done` or the pending
`finalSegmentReceived` flag. -/
theorem WsClient.step_facBound (p : String) (s : WsClient.ClientState)
    (e : WsClient.ClientEvent) :
    WsClient.facCount (WsClient.step p s e).2
        + WsClient.fsrN (WsClient.step p s e).1
      ≤ WsClient.fsrN s + WsClient.finalSegCount [e] := by
  cases e with
  | wsText m =>
    cases m <;>
      simp [WsClient.step, WsClient.handleText, WsClient.cleanup,
        WsClient.trySend, WsClient.facCount, WsClient.finalSegCount,
        WsClient.fsrN, List.count_cons, List.count_singleton] <;>
      split_ifs <;> simp_all [List.count_cons] <;> omega
  | _ =>
    simp [WsClient.step, WsClient.cleanup, WsClient.trySend,
      WsClient.facCount, WsClient.finalSegCount, WsClient.fsrN,
      List.count_cons, List.count_singleton] <;>
    split_ifs <;> simp_all [List.count_cons] <;> omega

/-- Trace-level accounting: over any run, at most one
`final_audio_complete` is sent per final `segment_done` received. -/
theorem WsClient.run_facBound (p : String) :
    ∀ (evs : List WsClient.ClientEvent) (s : WsClient.ClientState),
      WsClient.facCount (WsClient.run p s evs).2
          + WsClient.fsrN (WsClient.run p s evs).1
        ≤ WsClient.fsrN s + WsClient.finalSegCount evs := by
  intro evs
  induction evs with
  | nil =>
    intro s
    simp [WsClient.run, WsClient.facCount, WsClient.finalSegCount]
  | cons e es ih =>
    intro s
    have hstep := WsClient.step_facBound p s e
    have hih := ih (WsClient.step p s e).1
    have hcons : WsClient.finalSegCount (e :: es)
        = WsClient.finalSegCount [e] + WsClient.finalSegCount es := by
      simp [WsClient.finalSegCount, List.count_cons, List.count_singleton]
      split_ifs <;> omega
    simp only [WsClient.run, WsClient.facCount, List.count_append] at *
    omega

/-- Characterization of the emission sites: a step sends
`final_audio_complete` only on a final `segment_done` arriving with
playback already stopped, or on a playing→stopped playback message with
the final segment pending. -/
theorem WsClient.fac_emission_sites (p : String) (s : WsClient.ClientState)
    (e : WsClient.ClientEvent)
    (h : 0 < WsClient.facCount (WsClient.step p s e).2) :
    (e = .wsText (.segmentDone true) ∧ s.playerIsPlaying = false ∧
      s.ready = .OPEN) ∨
    (e = .playback false ∧ s.finalSegmentReceived = true ∧
      s.closed = false ∧ s.ready = .OPEN) := by
  cases e with
  | wsText m =>
    cases m with
    | segmentDone b =>
      cases b with
      | true =>
        by_cases hO : s.ready = .OPEN
        · by_cases hpl : s.playerIsPlaying
          · exfalso
            simp [WsClient.step, WsClient.handleText, hO, hpl,
              WsClient.facCount] at h
          · exact Or.inl ⟨rfl, by simpa using hpl, hO⟩
        · exfalso
          simp [WsClient.step, hO, WsClient.facCount] at h
      | false =>
        exfalso
        by_cases hO : s.ready = .OPEN <;>
          simp [WsClient.step, WsClient.handleText, hO,
            WsClient.facCount] at h
    | status msg =>
      exfalso
      by_cases hO : s.ready = .OPEN <;>
        simp [WsClient.step, WsClient.handleText, hO, WsClient.facCount] at h
    | asrFinal t =>
      exfalso
      by_cases hO : s.ready = .OPEN <;>
        simp [WsClient.step, WsClient.handleText, hO, WsClient.facCount] at h
    | llmToken t =>
      exfalso
      by_cases hO : s.ready = .OPEN <;>
        simp [WsClient.step, WsClient.handleText, hO, WsClient.facCount] at h
    | turnDone =>
      exfalso
      by_cases hO : s.ready = .OPEN <;>
        simp [WsClient.step, WsClient.handleText, hO, WsClient.facCount] at h
    | hangup =>
      exfalso
      by_cases hO : s.ready = .OPEN <;>
        simp [WsClient.step, WsClient.handleText, hO, WsClient.facCount] at h
    | done =>
      exfalso
      by_cases hO : s.ready = .OPEN <;>
        by_cases hcl : s.closed <;>
          simp [WsClient.step, WsClient.handleText, WsClient.cleanup, hO,
            hcl, WsClient.facCount] at h
  | playback b =>
    by_cases hcl : s.closed
    · exfalso
      simp [WsClient.step, hcl, WsClient.facCount] at h
    · by_cases hfsr : s.finalSegmentReceived ∧ b = false
      · by_cases hO : s.ready = .OPEN
        · exact Or.inr ⟨by rw [hfsr.2], hfsr.1, by simpa using hcl, hO⟩
        · exfalso
          simp [WsClient.step, hcl, hfsr, WsClient.trySend, hO,
            WsClient.facCount] at h
      · exfalso
        simp [WsClient.step, hcl, hfsr, WsClient.facCount] at h
  | wsOpen =>
    exfalso
    by_cases hc : s.ready = .CONNECTING <;>
      simp [WsClient.step, hc, WsClient.facCount] at h
  | wsBinary payload =>
    exfalso
    by_cases hO : s.ready = .OPEN <;>
      simp [WsClient.step, hO, WsClient.facCount] at h
  | micFrame ba payload =>
    exfalso
    by_cases hcl : s.closed <;> by_cases hO : s.ready = .OPEN <;>
      by_cases hba : WsClient.MAX_WS_BUFFER < ba <;>
        simp [WsClient.step, hcl, hO, hba, WsClient.facCount] at h
  | stopCall =>
    exfalso
    by_cases hcl : s.closed <;> by_cases hO : s.ready = .OPEN <;>
      simp [WsClient.step, hcl, WsClient.trySend, hO, WsClient.facCount] at h
  | stopTimeout =>
    exfalso
    by_cases hcl : s.closed <;>
      simp [WsClient.step, hcl, WsClient.cleanup, WsClient.facCount] at h
  | wsError =>
    exfalso
    by_cases hcl : s.closed <;>
      simp [WsClient.step, hcl, WsClient.cleanup, WsClient.facCount] at h
  | wsClose =>
    exfalso
    by_cases hcl : s.closed <;>
      simp [WsClient.step, hcl, WsClient.cleanup, WsClient.facCount] at h

/-- C2: the client sends `{"type":"final_audio_complete"}` at most once
per `segment_done is_final=true` it receives (trace-level count bound);
any step that sends it is either the final `segment_done` arriving while
the player reports not playing (immediate send) or a playing→stopped
playback message with the final segment pending (deferred send); and in
both of those situations the send does happen, consuming the pending
flag. -/
theorem claim_C2_final_audio_complete :
    (∀ (p : String) (evs : List WsClient.ClientEvent),
      WsClient.facCount (WsClient.run p WsClient.initClient evs).2
        ≤ WsClient.finalSegCount evs) ∧
    (∀ (p : String) (s : WsClient.ClientState) (e : WsClient.ClientEvent),
      0 < WsClient.facCount (WsClient.step p s e).2 →
      (e = .wsText (.segmentDone true) ∧ s.playerIsPlaying = false ∧
        s.ready = .OPEN) ∨
      (e = .playback false ∧ s.finalSegmentReceived = true ∧
        s.closed = false ∧ s.ready = .OPEN)) ∧
    (∀ (p : String) (s : WsClient.ClientState),
      s.ready = .OPEN → s.playerIsPlaying = false →
      WsClient.facCount
          (WsClient.step p s (.wsText (.segmentDone true))).2 = 1 ∧
      (WsClient.step p s
          (.wsText (.segmentDone true))).1.finalSegmentReceived = false) ∧
    (∀ (p : String) (s : WsClient.ClientState),
      s.ready = .OPEN → s.closed = false → s.finalSegmentReceived = true →
      WsClient.facCount (WsClient.step p s (.playback false)).2 = 1 ∧
      (WsClient.step p s
          (.playback false)).1.finalSegmentReceived = false) := by
  refine ⟨?_, WsClient.fac_emission_sites, ?_, ?_⟩
  · intro p evs
    have h := WsClient.run_facBound p evs WsClient.initClient
    have h0 : WsClient.fsrN WsClient.initClient = 0 := by
      simp [WsClient.fsrN, WsClient.initClient]
    omega
  · intro p s hO hpl
    simp [WsClient.step, WsClient.handleText, hO, hpl, WsClient.trySend,
      WsClient.facCount]
  · intro p s hO hcl hfsr
    simp [WsClient.step, hcl, hfsr, WsClient.trySend, hO,
      WsClient.facCount, List.count_cons]

/-- C2, witness: applied at the concrete open client — the final
`segment_done` arriving with playback stopped sends exactly one
`final_audio_complete`, and with the flag pending a stop-transition
playback message sends exactly one. -/
theorem claim_C2_witness :
    WsClient.facCount
        (WsClient.step "A" openClient (.wsText (.segmentDone true))).2 = 1 ∧
    WsClient.facCount
        (WsClient.step "A"
          { openClient with playerIsPlaying := true,
                            finalSegmentReceived := true }
          (.playback false)).2 = 1 := by
  have h1 := claim_C2_final_audio_complete.2.2.1 "A" openClient rfl rfl
  have h2 := claim_C2_final_audio_complete.2.2.2 "A"
    { openClient with playerIsPlaying := true, finalSegmentReceived := true }
    rfl rfl rfl
  exact ⟨h1.1, h2.1⟩

/-! ## Claim C8 — gain invariant and output range -/

/-- `onmessage` preserves the gain invariant. -/
theorem PCMPlayer.onmessage_GInv (s : PCMPlayer.PlayerState)
    (m : PCMPlayer.PlayerMsg) (h : PCMPlayer.GInv s) :
    PCMPlayer.GInv (PCMPlayer.onmessage s m).1 := by
  obtain ⟨h1, h2, h3⟩ := h
  cases m with
  | push chunk =>
    by_cases hg : s.gain = 0 <;>
      simp only [PCMPlayer.onmessage, PCMPlayer.GInv, hg, if_pos, if_neg,
        ite_true, ite_false, not_false_iff]
    · exact ⟨by norm_num, by norm_num, by omega⟩
    · exact ⟨h1, h2, h3⟩
  | clear =>
    refine ⟨h1, h2, ?_⟩
    intro hx
    simp [PCMPlayer.onmessage] at hx
  | rampDown ms =>
    by_cases hguard : 0 < s.rampSamplesLeft ∨ s.gain ≤ 1 / 10000
    · simpa only [PCMPlayer.onmessage, hguard, ite_true] using ⟨h1, h2, h3⟩
    · have hgain : 1 / 10000 < s.gain := by
        push_neg at hguard
        exact hguard.2
      simp only [PCMPlayer.onmessage, hguard, ite_false, if_neg,
        not_false_iff]
      have hpos : 0 < max 1 (PCMPlayer.sampleRate * max 1 ms / 1000) :=
        lt_of_lt_of_le one_pos (le_max_left _ _)
      have hnq : ((max 1 (PCMPlayer.sampleRate * max 1 ms / 1000) : ℕ) : ℚ)
          ≠ 0 := by exact_mod_cast hpos.ne'
      refine ⟨h1, h2, fun _ => ⟨?_, ?_⟩⟩
      · apply div_nonpos_of_nonpos_of_nonneg
        · linarith
        · positivity
      · field_simp
        ring

/-- The per-sample ramp update preserves the gain invariant. -/
theorem PCMPlayer.rampTick_GInv (s : PCMPlayer.PlayerState)
    (h : PCMPlayer.GInv s) : PCMPlayer.GInv (PCMPlayer.rampTick s).1 := by
  obtain ⟨h1, h2, h3⟩ := h
  by_cases hr : 0 < s.rampSamplesLeft
  · obtain ⟨hstep, hsum⟩ := h3 hr
    by_cases hleft : s.rampSamplesLeft - 1 = 0
    · -- last ramp sample: the clamped gain is stored (under the
      -- invariant it is exactly 0, but GInv needs only the clamp)
      have hn1 : s.rampSamplesLeft = 1 := by omega
      simp only [PCMPlayer.rampTick, hr, ite_true, hleft, if_pos]
      by_cases hgc : (if 1 ≤ (if s.gain + s.rampStep ≤ 0 then 0
            else s.gain + s.rampStep) then 1
          else (if s.gain + s.rampStep ≤ 0 then 0
            else s.gain + s.rampStep)) ≤ 1 / 10000
      · rw [if_pos hgc]
        exact ⟨le_refl 0, by norm_num, by intro hx; simp at hx⟩
      · rw [if_neg hgc]
        refine ⟨?_, ?_, by intro hx; simp at hx⟩
      -- bounds of the clamped value
        · dsimp only
          split_ifs <;> linarith
        · dsimp only
          split_ifs <;> linarith
    · -- mid-ramp: one linear step down
      simp only [PCMPlayer.rampTick, hr, ite_true, hleft, if_neg,
        not_false_iff]
      have hcast : ((s.rampSamplesLeft - 1 : ℕ) : ℚ)
          = (s.rampSamplesLeft : ℚ) - 1 := by
        have : 1 ≤ s.rampSamplesLeft := hr
        push_cast [this]
        ring
      refine ⟨?_, ?_, fun _ => ⟨hstep, ?_⟩⟩
      · -- 0 ≤ gain + step, since gain + n·step = 0 and (n-1)·step ≤ 0
        dsimp only
        have hn1 : (1 : ℚ) ≤ (s.rampSamplesLeft : ℚ) := by
          exact_mod_cast hr
        nlinarith [mul_nonpos_of_nonneg_of_nonpos
          (by linarith : (0:ℚ) ≤ (s.rampSamplesLeft : ℚ) - 1) hstep]
      · dsimp only
        linarith
      · dsimp only
        rw [hcast]
        ring_nf
        ring_nf at hsum
        linarith
  · simpa only [PCMPlayer.rampTick, hr, ite_false] using ⟨h1, h2, h3⟩

/-- Product of a clamped sample and an in-range gain stays in
`[-1, 1]`. -/
theorem mul_gain_bounds (c g : ℚ) (hc1 : -1 ≤ c) (hc2 : c ≤ 1)
    (hg1 : 0 ≤ g) (hg2 : g ≤ 1) : -1 ≤ c * g ∧ c * g ≤ 1 := by
  constructor <;> nlinarith

/-- The `process` while-loop preserves the gain invariant, and every
sample it writes lies in `[-1, 1]`. -/
theorem PCMPlayer.loop_GInv :
    ∀ (n : ℕ) (s : PCMPlayer.PlayerState), PCMPlayer.GInv s →
      PCMPlayer.GInv (PCMPlayer.loop s n).1 ∧
      ∀ x ∈ (PCMPlayer.loop s n).2.1, -1 ≤ x ∧ x ≤ 1 := by
  intro n
  induction n with
  | zero =>
    intro s h
    exact ⟨h, by simp [PCMPlayer.loop]⟩
  | succ m ih =>
    intro s h
    rcases hpop : PCMPlayer.popSample s.queue s.ptr with ⟨o, q, pp⟩
    cases o with
    | none =>
      refine ⟨?_, ?_⟩
      · simp only [PCMPlayer.loop, hpop]
        exact h
      · simp [PCMPlayer.loop, hpop]
    | some v =>
      have hG1 : PCMPlayer.GInv { s with queue := q, ptr := pp } := h
      have hG2 := PCMPlayer.rampTick_GInv _ hG1
      have hclamp := clampQ_bounds ((v : ℚ) / 32768)
      have hout := mul_gain_bounds _ _ hclamp.1 hclamp.2 hG2.1 hG2.2.1
      by_cases hgz :
          (PCMPlayer.rampTick { s with queue := q, ptr := pp }).1.gain ≤ 0
      · refine ⟨?_, ?_⟩
        · simp only [PCMPlayer.loop, hpop, hgz, ite_true]
          exact hG2
        · simp only [PCMPlayer.loop, hpop, hgz, ite_true]
          intro x hx
          rcases List.mem_singleton.mp hx with rfl
          exact hout
      · have hrec := ih _ hG2
        refine ⟨?_, ?_⟩
        · simp only [PCMPlayer.loop, hpop, hgz, ite_false]
          exact hrec.1
        · simp only [PCMPlayer.loop, hpop, hgz, ite_false]
          intro x hx
          rcases List.mem_cons.mp hx with rfl | hx2
          · exact hout
          · exact hrec.2 x hx2

/-- One `process` call preserves the gain invariant and writes only
samples in `[-1, 1]` (silence padding included). -/
theorem PCMPlayer.processCall_GInv (s : PCMPlayer.PlayerState) (n : ℕ)
    (h : PCMPlayer.GInv s) :
    PCMPlayer.GInv (PCMPlayer.processCall s n).1 ∧
    ∀ x ∈ (PCMPlayer.processCall s n).2.1, -1 ≤ x ∧ x ≤ 1 := by
  obtain ⟨h1, h2⟩ := PCMPlayer.loop_GInv n s h
  unfold PCMPlayer.processCall
  dsimp only
  split_ifs with hcond
  · refine ⟨h1, ?_⟩
    intro x hx
    rcases List.mem_append.mp hx with hx1 | hx1
    · exact h2 x hx1
    · rcases List.eq_of_mem_replicate hx1 with rfl
      norm_num
  · refine ⟨h1, ?_⟩
    intro x hx
    rcases List.mem_append.mp hx with hx1 | hx1
    · exact h2 x hx1
    · rcases List.eq_of_mem_replicate hx1 with rfl
      norm_num

/-- Every reachable player state satisfies the gain invariant. -/
theorem PCMPlayer.reach_GInv (s : PCMPlayer.PlayerState) (log : List Bool)
    (h : PCMPlayer.Reach s log) : PCMPlayer.GInv s := by
  induction h with
  | init =>
    refine ⟨by norm_num [PCMPlayer.initPlayer],
      by norm_num [PCMPlayer.initPlayer], ?_⟩
    intro hx
    simp [PCMPlayer.initPlayer] at hx
  | msg m hr ih => exact PCMPlayer.onmessage_GInv _ m ih
  | proc n hr ih => exact (PCMPlayer.processCall_GInv _ n ih).1

/-- C8: in every reachable state of the playback worklet the gain lies
in `[0, 1]` under exact arithmetic (it starts at 1, `ramp_down` only
steps it linearly toward 0, the final ramp value is clamped, and `push`
can only reset it from 0 back to 1), and consequently every sample a
`process` call writes to the audio output — the clamped input sample
times the gain — lies in `[-1, 1]`. -/
theorem claim_C8_gain_invariant (s : PCMPlayer.PlayerState)
    (log : List Bool) (h : PCMPlayer.Reach s log) :
    (0 ≤ s.gain ∧ s.gain ≤ 1) ∧
    ∀ (frameLen : ℕ) (x : ℚ),
      x ∈ (PCMPlayer.processCall s frameLen).2.1 → -1 ≤ x ∧ x ≤ 1 := by
  have hg := PCMPlayer.reach_GInv s log h
  exact ⟨⟨hg.1, hg.2.1⟩,
    fun n x hx => (PCMPlayer.processCall_GInv s n hg).2 x hx⟩

/-- C8, witness: the theorem applied at the initial (reachable) state,
with a 128-slot output frame. -/
theorem claim_C8_witness :
    (0 ≤ PCMPlayer.initPlayer.gain ∧ PCMPlayer.initPlayer.gain ≤ 1) ∧
    ∀ x ∈ (PCMPlayer.processCall PCMPlayer.initPlayer 128).2.1,
      -1 ≤ x ∧ x ≤ 1 := by
  have h := claim_C8_gain_invariant PCMPlayer.initPlayer []
    PCMPlayer.Reach.init
  exact ⟨h.1, fun x hx => h.2 128 x hx⟩

/-! ## Claim C9 — posted state messages strictly alternate -/

/-- A step that posts nothing and keeps `isPlaying` preserves the log
invariant. -/
theorem PCMPlayer.sinv_same (s s' : PCMPlayer.PlayerState)
    (log : List Bool) (h : PCMPlayer.SInv s log)
    (hp : s'.isPlaying = s.isPlaying) : PCMPlayer.SInv s' log := by
  obtain ⟨h1, h2, h3⟩ := h
  exact ⟨h1, by rw [hp]; exact h2, h3⟩

/-- Posting the value `b` at the moment `isPlaying` flips from `!b` to
`b` preserves the log invariant. -/
theorem PCMPlayer.sinv_flip (s s' : PCMPlayer.PlayerState)
    (log : List Bool) (b : Bool) (h : PCMPlayer.SInv s log)
    (hcur : s.isPlaying = !b) (hnew : s'.isPlaying = b) :
    PCMPlayer.SInv s' (log ++ [b]) := by
  obtain ⟨h1, h2, h3⟩ := h
  refine ⟨?_, ?_, ?_⟩
  · rw [List.chain'_append]
    refine ⟨h1, List.chain'_singleton b, ?_⟩
    intro x hx y hy
    simp only [List.head?_cons, Option.mem_def, Option.some.injEq] at hy
    subst hy
    have hx' : log.getLast? = some x := hx
    rw [hx'] at h2
    simp only [Option.getD_some] at h2
    rw [h2, hcur]
    cases b <;> simp
  · rw [List.getLast?_concat]
    simpa using hnew.symm
  · right
    cases log with
    | nil =>
      simp only [List.getLast?_nil, Option.getD_none] at h2
      have hb : b = true := by
        cases b
        · exfalso
          rw [← h2] at hcur
          exact absurd hcur (by decide)
        · rfl
      simp [hb]
    | cons a t =>
      rcases h3 with h3 | h3
      · cases h3
      · simpa using h3

/-- `onmessage` preserves the log invariant. -/
theorem PCMPlayer.onmessage_SInv (s : PCMPlayer.PlayerState)
    (m : PCMPlayer.PlayerMsg) (log : List Bool)
    (h : PCMPlayer.SInv s log) :
    PCMPlayer.SInv (PCMPlayer.onmessage s m).1
      (log ++ (PCMPlayer.onmessage s m).2) := by
  cases m with
  | push chunk =>
    by_cases hp : s.isPlaying
    · have heff : (PCMPlayer.onmessage s (.push chunk)).2 = [] := by
        simp [PCMPlayer.onmessage, hp]
      rw [heff, List.append_nil]
      apply PCMPlayer.sinv_same s _ log h
      simp only [PCMPlayer.onmessage]
      split_ifs <;> simp [hp]
    · have heff : (PCMPlayer.onmessage s (.push chunk)).2 = [true] := by
        simp [PCMPlayer.onmessage, hp]
      rw [heff]
      apply PCMPlayer.sinv_flip s _ log true h (by simp [hp])
      simp only [PCMPlayer.onmessage]
      split_ifs <;> simp
  | clear =>
    by_cases hp : s.isPlaying
    · have heff : (PCMPlayer.onmessage s .clear).2 = [false] := by
        simp [PCMPlayer.onmessage, hp]
      rw [heff]
      exact PCMPlayer.sinv_flip s _ log false h (by simp [hp]) rfl
    · have heff : (PCMPlayer.onmessage s .clear).2 = [] := by
        simp [PCMPlayer.onmessage, hp]
      rw [heff, List.append_nil]
      exact PCMPlayer.sinv_same s _ log h (by simp_all [PCMPlayer.onmessage])
  | rampDown ms =>
    by_cases hguard : 0 < s.rampSamplesLeft ∨ s.gain ≤ 1 / 10000 <;>
      [simp only [PCMPlayer.onmessage, hguard, ite_true];
       simp only [PCMPlayer.onmessage, hguard, ite_false]] <;>
      rw [List.append_nil] <;>
      exact PCMPlayer.sinv_same s _ log h rfl

/-- What a ramp tick can post: either nothing (flag unchanged) or a
single `false` at the moment the flag flips from `true` to `false`. -/
theorem PCMPlayer.rampTick_post_spec (s : PCMPlayer.PlayerState) :
    ((PCMPlayer.rampTick s).2 = [] ∧
      (PCMPlayer.rampTick s).1.isPlaying = s.isPlaying) ∨
    ((PCMPlayer.rampTick s).2 = [false] ∧ s.isPlaying = true ∧
      (PCMPlayer.rampTick s).1.isPlaying = false) := by
  unfold PCMPlayer.rampTick
  dsimp only
  split_ifs <;> simp_all

/-- The per-sample ramp update preserves the log invariant. -/
theorem PCMPlayer.rampTick_SInv (s : PCMPlayer.PlayerState)
    (log : List Bool) (h : PCMPlayer.SInv s log) :
    PCMPlayer.SInv (PCMPlayer.rampTick s).1
      (log ++ (PCMPlayer.rampTick s).2) := by
  rcases PCMPlayer.rampTick_post_spec s with ⟨he, hp⟩ | ⟨he, hcur, hp⟩
  · rw [he, List.append_nil]
    exact PCMPlayer.sinv_same s _ log h hp
  · rw [he]
    exact PCMPlayer.sinv_flip s _ log false h (by simp [hcur]) hp

/-- The `process` while-loop preserves the log invariant. -/
theorem PCMPlayer.loop_SInv :
    ∀ (n : ℕ) (s : PCMPlayer.PlayerState) (log : List Bool),
      PCMPlayer.SInv s log →
      PCMPlayer.SInv (PCMPlayer.loop s n).1
        (log ++ (PCMPlayer.loop s n).2.2) := by
  intro n
  induction n with
  | zero =>
    intro s log h
    simpa [PCMPlayer.loop] using h
  | succ m ih =>
    intro s log h
    rcases hpop : PCMPlayer.popSample s.queue s.ptr with ⟨o, q, pp⟩
    cases o with
    | none =>
      simp only [PCMPlayer.loop, hpop, List.append_nil]
      exact PCMPlayer.sinv_same s _ log h rfl
    | some v =>
      have h1 : PCMPlayer.SInv { s with queue := q, ptr := pp } log :=
        PCMPlayer.sinv_same s _ log h rfl
      have h2 := PCMPlayer.rampTick_SInv _ log h1
      by_cases hgz :
          (PCMPlayer.rampTick { s with queue := q, ptr := pp }).1.gain ≤ 0
      · simp only [PCMPlayer.loop, hpop, hgz, ite_true]
        exact h2
      · have h3 := ih _ _ h2
        simp only [PCMPlayer.loop, hpop, hgz, ite_false]
        simpa [List.append_assoc] using h3

/-- One `process` call (loop plus underrun check) preserves the log
invariant. -/
theorem PCMPlayer.processCall_SInv (s : PCMPlayer.PlayerState) (n : ℕ)
    (log : List Bool) (h : PCMPlayer.SInv s log) :
    PCMPlayer.SInv (PCMPlayer.processCall s n).1
      (log ++ (PCMPlayer.processCall s n).2.2) := by
  have h1 := PCMPlayer.loop_SInv n s log h
  unfold PCMPlayer.processCall
  dsimp only
  split_ifs with hcond
  · rw [← List.append_assoc]
    exact PCMPlayer.sinv_flip (PCMPlayer.loop s n).1 _ _ false h1
      (by simp [hcond.1]) rfl
  · exact h1

/-- Every reachable configuration satisfies the log invariant. -/
theorem PCMPlayer.reach_SInv (s : PCMPlayer.PlayerState) (log : List Bool)
    (h : PCMPlayer.Reach s log) : PCMPlayer.SInv s log := by
  induction h with
  | init => exact ⟨List.chain'_nil, by simp [PCMPlayer.initPlayer], Or.inl rfl⟩
  | msg m hr ih => exact PCMPlayer.onmessage_SInv _ m _ ih
  | proc n hr ih => exact PCMPlayer.processCall_SInv _ n _ ih

/-- C9: along every reachable execution of the playback worklet, the
sequence of posted `{type:'state', isPlaying}` messages strictly
alternates (each post happens exactly when the `isPlaying` flag actually
changes), the first posted value — if any — is `true`, and the last
posted value equals the current `isPlaying` flag. -/
theorem claim_C9_state_alternation (s : PCMPlayer.PlayerState)
    (log : List Bool) (h : PCMPlayer.Reach s log) :
    List.Chain' (· ≠ ·) log ∧ (log = [] ∨ log.head? = some true) ∧
    log.getLast?.getD false = s.isPlaying := by
  obtain ⟨h1, h2, h3⟩ := PCMPlayer.reach_SInv s log h
  exact ⟨h1, h3, h2⟩

/-- C9, witness: the theorem applied to the reachable configuration
after one `push` on the initial state — the posted log is `[true]`,
which alternates, starts with `true` and matches `isPlaying = true`. -/
theorem claim_C9_witness :
    List.Chain' (· ≠ ·)
      ((PCMPlayer.onmessage PCMPlayer.initPlayer (.push [5])).2) ∧
    ((PCMPlayer.onmessage PCMPlayer.initPlayer
        (.push [5])).2).getLast?.getD false
      = (PCMPlayer.onmessage PCMPlayer.initPlayer (.push [5])).1.isPlaying
    := by
  have h := claim_C9_state_alternation _ _
    (PCMPlayer.Reach.msg (.push [5]) PCMPlayer.Reach.init)
  exact ⟨by simpa using h.1, by simpa using h.2.2⟩
